import Mathlib

/-!
Verification development for the UnisonAI agent framework.

The Python sources are embedded shallowly:

* `unisonai/types.py` (`ToolParameter.validate_value`) and
  `unisonai/tools/tool.py` (`BaseTool.validate_parameters`, `BaseTool.execute`)
  become pure Lean functions over a model `PyVal` of Python values.
* `unisonai/tools/mcp_tool.py` (`MCPTool`) together with the `BaseTool`
  constructor from `unisonai/tools/tool.py` become state-record transformers.
* `unisonai/single_agent.py` (`Single_Agent.unleash`, `_execute_task`,
  `_run_task_loop`, `_process_response`, `_extract_yaml_blocks`,
  `_execute_tool_from_yaml`, `_handle_ask_user`, `_handle_pass_result`,
  `_execute_custom_tool`) become a fuel-indexed operational semantics in which
  the language model, the user and the tools are oracles.

Machine integers do not occur; Python floats appear only in the validator,
where only ordering and integrality are ever used, so they are modelled as
rationals.  Python exceptions are modelled as `Except`/explicit error
alternatives.  External collaborators (PyYAML, the regex engine behaviour of
the two patterns used in `_extract_yaml_blocks`, the MCP session) are modelled
by executable functions whose doc comments state exactly what fragment they
cover.
-/

/-- A single quote character, used when rendering Python error messages. -/
def apos : String := String.mk [Char.ofNat 39]

/-- The backtick character that opens and closes fenced code blocks. -/
def btick : Char := Char.ofNat 96

/-- Primitive Python values that may occur inside containers.  The validator
never inspects container elements except through `==`, so modelling container
payloads as primitives loses nothing the embedded code can observe. -/
inductive PyPrim where
  | none
  | str (s : String)
  | int (n : Int)
  | float (q : Rat)
  | bool (b : Bool)
deriving DecidableEq

/-- Model of the Python values handled by the tool layer: `None`, `str`,
`int`, `float` (modelled as a rational: the validator only compares and tests
integrality), `bool`, `list` and `dict`. -/
inductive PyVal where
  | none
  | str (s : String)
  | int (n : Int)
  | float (q : Rat)
  | bool (b : Bool)
  | list (elems : List PyPrim)
  | dict (entries : List (String × PyPrim))
deriving DecidableEq

/-- Numeric view of a primitive (Python `bool` is an `int` subclass). -/
def pyPrimRat : PyPrim → Option Rat
  | .int n => some (n : Rat)
  | .float q => some q
  | .bool b => some (if b then 1 else 0)
  | _ => Option.none

/-- Python `==` on primitives: numeric types compare by value across
`int`/`float`/`bool`; other types compare structurally. -/
def pyPrimEq (a b : PyPrim) : Bool :=
  match pyPrimRat a, pyPrimRat b with
  | some x, some y => x == y
  | _, _ =>
    match a, b with
    | .none, .none => true
    | .str x, .str y => x == y
    | _, _ => false

/-- Numeric view of a `PyVal`. -/
def pyRat : PyVal → Option Rat
  | .int n => some (n : Rat)
  | .float q => some q
  | .bool b => some (if b then 1 else 0)
  | _ => Option.none

/-- Python `==` on the modelled values: numeric cross-type equality,
structural equality on strings and `None`, element-wise equality on lists and
key-wise equality on dicts. -/
def pyEq (a b : PyVal) : Bool :=
  match pyRat a, pyRat b with
  | some x, some y => x == y
  | _, _ =>
    match a, b with
    | .none, .none => true
    | .str x, .str y => x == y
    | .list x, .list y =>
        x.length == y.length && (List.zip x y).all fun pr => pyPrimEq pr.1 pr.2
    | .dict x, .dict y =>
        x.length == y.length &&
          x.all fun kv =>
            match y.lookup kv.1 with
            | some v => pyPrimEq kv.2 v
            | Option.none => false
    | _, _ => false

/-- `ToolParameterType` from `unisonai/types.py`. -/
inductive ToolParameterType where
  | string
  | integer
  | float
  | boolean
  | list
  | dict
  | any
deriving DecidableEq

/-- `ToolParameter` from `unisonai/types.py`. -/
structure ToolParameter where
  name : String
  description : String := ""
  param_type : ToolParameterType := .string
  default_value : PyVal := .none
  required : Bool := true
  min_value : Option Rat := Option.none
  max_value : Option Rat := Option.none
  choices : Option (List PyVal) := Option.none
deriving DecidableEq

/-- The `isinstance(value, (int, float))` test (Python `bool` passes it). -/
def isIntLike : PyVal → Bool
  | .int _ => true
  | .float _ => true
  | .bool _ => true
  | _ => false

/-- The type-validation chain of `ToolParameter.validate_value`
(`unisonai/types.py` lines 66-82): strings/bools/lists/dicts need the exact
type, `integer` additionally rejects floats with a fractional part, `float`
accepts ints, `any` accepts everything. -/
def typeOk (t : ToolParameterType) (value : PyVal) : Bool :=
  match t with
  | .string => match value with | .str _ => true | _ => false
  | .integer =>
      isIntLike value &&
        (match value with | .float q => q.den == 1 | _ => true)
  | .float => isIntLike value
  | .boolean => match value with | .bool _ => true | _ => false
  | .list => match value with | .list _ => true | _ => false
  | .dict => match value with | .dict _ => true | _ => false
  | .any => true

/-- The numeric-range block of `validate_value` (lines 84-89). -/
def rangeOk (p : ToolParameter) (value : PyVal) : Bool :=
  if p.param_type == .integer || p.param_type == .float then
    match pyRat value with
    | some q =>
        (match p.min_value with | some m => !(q < m) | Option.none => true) &&
        (match p.max_value with | some m => !(m < q) | Option.none => true)
    | Option.none => true
  else true

/-- The choices block of `validate_value` (lines 91-93): membership via
Python `==`. -/
def choicesOk (p : ToolParameter) (value : PyVal) : Bool :=
  match p.choices with
  | some cs => cs.any fun c => pyEq value c
  | Option.none => true

/-- `ToolParameter.validate_value` from `unisonai/types.py`: `None` fails
exactly for required parameters, then the type chain, the numeric range and
the choices list are checked in order. -/
def validate_value (p : ToolParameter) (value : PyVal) : Bool :=
  if p.required && value == PyVal.none then false
  else if value == PyVal.none then true
  else typeOk p.param_type value && rangeOk p value && choicesOk p value

/-- `kwargs.get(param.name)` from `BaseTool.validate_parameters`: an absent
key and a key bound to `None` are indistinguishable, both give `None`. -/
def getKwarg (kwargs : List (String × PyVal)) (name : String) : PyVal :=
  match kwargs.lookup name with
  | some v => v
  | Option.none => PyVal.none

/-- The default-value resolution of `BaseTool.validate_parameters`
(`unisonai/tools/tool.py` lines 143-147): the default replaces the looked-up
value whenever that value is `None` and the default is not. -/
def effectiveValue (p : ToolParameter) (kwargs : List (String × PyVal)) : PyVal :=
  let value := getKwarg kwargs p.name
  if value = PyVal.none ∧ p.default_value ≠ PyVal.none then p.default_value
  else value

/-- The per-parameter loop of `BaseTool.validate_parameters` (lines 142-155):
passing parameters are collected, failing required parameters add an error
message, failing optional parameters are skipped silently. -/
def validateGo (kwargs : List (String × PyVal)) :
    List ToolParameter → List (String × PyVal) → List String →
      List (String × PyVal) × List String
  | [], acc, errs => (acc, errs)
  | p :: ps, acc, errs =>
      let value := effectiveValue p kwargs
      if validate_value p value then
        validateGo kwargs ps (acc ++ [(p.name, value)]) errs
      else if p.required then
        validateGo kwargs ps acc
          (errs ++ ["Invalid or missing required parameter " ++ apos ++ p.name ++ apos])
      else
        validateGo kwargs ps acc errs

/-- `BaseTool.validate_parameters` from `unisonai/tools/tool.py`: returns the
validated mapping, or the `ValueError` message raised when any required
parameter failed. -/
def validate_parameters (params : List ToolParameter)
    (kwargs : List (String × PyVal)) : Except String (List (String × PyVal)) :=
  let r := validateGo kwargs params [] []
  if r.2 = [] then .ok r.1
  else .error ("Parameter validation failed: " ++ String.intercalate ("; ") r.2)

/-- `ToolExecutionResult` from `unisonai/types.py`.  Wall-clock durations are
modelled as naturals supplied by the environment. -/
structure ToolExecutionResult where
  success : Bool
  result : PyVal := .none
  error : Option String := Option.none
  execution_time : Option Nat := Option.none
deriving DecidableEq

/-- `BaseTool.execute` from `unisonai/tools/tool.py` (lines 162-189): the
tool's `_run` is an oracle that either returns a value or raises (modelled by
`Except`); validation and run errors are both converted into a failed result
carrying `Tool execution failed: <message>`.  `dt` is the measured elapsed
time, an input of the environment. -/
def baseExecute (params : List ToolParameter)
    (run : List (String × PyVal) → Except String PyVal) (dt : Nat)
    (kwargs : List (String × PyVal)) : ToolExecutionResult :=
  match validate_parameters params kwargs with
  | .error e =>
      { success := false, error := some ("Tool execution failed: " ++ e),
        execution_time := some dt }
  | .ok validated =>
      match run validated with
      | .error e =>
          { success := false, error := some ("Tool execution failed: " ++ e),
            execution_time := some dt }
      | .ok v =>
          { success := true, result := v, execution_time := some dt }

/-- Whether a full `execute` call fails: validation raises, or the tool body
raises on the validated arguments. -/
def executeFails (params : List ToolParameter)
    (run : List (String × PyVal) → Except String PyVal)
    (kwargs : List (String × PyVal)) : Bool :=
  match validate_parameters params kwargs with
  | .error _ => true
  | .ok validated =>
      match run validated with
      | .error _ => true
      | .ok _ => false

/-- The names of declared parameters whose effective value fails
`validate_value` while the parameter is required — exactly the ones
`validate_parameters` reports. -/
def requiredOffenders (kwargs : List (String × PyVal)) :
    List ToolParameter → List String
  | [] => []
  | p :: ps =>
      if !validate_value p (effectiveValue p kwargs) && p.required then
        p.name :: requiredOffenders kwargs ps
      else requiredOffenders kwargs ps

/-- The mapping `validate_parameters` returns on success: every declared
parameter whose effective value passes validation, bound to that value. -/
def collectValidated (kwargs : List (String × PyVal)) :
    List ToolParameter → List (String × PyVal)
  | [] => []
  | p :: ps =>
      if validate_value p (effectiveValue p kwargs) then
        (p.name, effectiveValue p kwargs) :: collectValidated kwargs ps
      else collectValidated kwargs ps

/-- Rendering of the `ValueError` raised by `validate_parameters`. -/
def renderValidationError (names : List String) : String :=
  "Parameter validation failed: " ++
    String.intercalate ("; ")
      (names.map fun n => "Invalid or missing required parameter " ++ apos ++ n ++ apos)

/-- Contiguous-sublist test (Python's `in` on strings). -/
def listHasSub (pat : List Char) : List Char → Bool
  | [] => pat.isEmpty
  | c :: cs => pat.isPrefixOf (c :: cs) || listHasSub pat cs

/-- Python substring containment `pat in hay`. -/
def containsStr (hay pat : String) : Bool :=
  listHasSub pat.data hay.data

/-- The `Field` record built by `MCPTool._convert_mcp_parameters_to_fields`
(`unisonai/tools/mcp_tool.py` lines 69-75); it carries the mapped parameter
type in `field_type`. -/
structure MCPField where
  name : String
  description : String
  default_value : PyVal
  required : Bool
  field_type : ToolParameterType
deriving DecidableEq

/-- One property of the foreign JSON-schema parameter object consumed by the
bridge: a type tag, an optional description and an optional default. -/
structure MCPPropInfo where
  type_tag : String
  descr : Option String := Option.none
  default : PyVal := .none
deriving DecidableEq

/-- The foreign parameter schema: `properties` plus a `required` name list. -/
structure MCPSchema where
  properties : List (String × MCPPropInfo)
  required : List String
deriving DecidableEq

/-- The fixed JSON-schema → native type mapping of
`_convert_mcp_parameters_to_fields` (`type_mapping`, lines 58-67); an
unrecognized tag falls back to `string`. -/
def mcpTypeFor (tag : String) : ToolParameterType :=
  if tag = "string" then .string
  else if tag = "integer" then .integer
  else if tag = "number" then .float
  else if tag = "boolean" then .boolean
  else if tag = "array" then .list
  else if tag = "object" then .dict
  else .string

/-- `MCPTool._convert_mcp_parameters_to_fields` from
`unisonai/tools/mcp_tool.py`: one `Field` per schema property, required iff
listed in the schema's `required` list, description defaulted to
`Parameter <name>`. -/
def convertMCPFields (schema : MCPSchema) : List MCPField :=
  schema.properties.map fun pr =>
    { name := pr.1
      description := pr.2.descr.getD ("Parameter " ++ pr.1)
      default_value := pr.2.default
      required := schema.required.contains pr.1
      field_type := mcpTypeFor pr.2.type_tag }

/-- Modelled from the spec: the snapshot of `unisonai/tools/tool.py` that
`mcp_tool.py` imports (its `Field`/params setter) is not in the sources; per
the spec the construction step translates each foreign property into a native
Parameter Descriptor carrying the mapped type, so the params setter derives
one `ToolParameter` per `Field`, copying name, description, default, required
and the mapped type. -/
def fieldToToolParameter (f : MCPField) : ToolParameter :=
  { name := f.name
    description := f.description
    param_type := f.field_type
    default_value := f.default_value
    required := f.required }

/-- The attribute state of an `MCPTool` instance: the `BaseTool` backing
attributes plus the bridge's own plain attributes. -/
structure MCPToolState where
  _name : String
  _description : String
  _parameters : List ToolParameter
  _legacy_params : List MCPField
  client_id : String
  mcp_tool_name : String
deriving DecidableEq

/-- `BaseTool.__init__` from `unisonai/tools/tool.py` (lines 70-75): it
unconditionally reinitializes the backing attributes `_parameters`,
`_legacy_params`, `_name` and `_description`. -/
def baseToolInit (st : MCPToolState) : MCPToolState :=
  { st with _parameters := [], _legacy_params := [], _name := "", _description := "" }

/-- `MCPTool.__init__` from `unisonai/tools/mcp_tool.py` (lines 26-36): the
name/description/bridge attributes and the converted params are assigned
first, and `super().__init__()` (= `baseToolInit`) is called last. -/
def mcpToolInit (name description : String) (schema : MCPSchema)
    (client_id mcp_tool_name : String) : MCPToolState :=
  let fields := convertMCPFields schema
  baseToolInit
    { _name := name
      _description := description
      _parameters := fields.map fieldToToolParameter
      _legacy_params := fields
      client_id := client_id
      mcp_tool_name := mcp_tool_name }

/-- The fields of a raised `MCPToolExecutionError`
(`unisonai/tools/mcp_errors.py` lines 18-24): the message and the
`tool_name` attribute. -/
structure MCPToolExecErr where
  message : String
  tool_name : String
deriving DecidableEq

/-- The externally-owned MCP session registry: the set of live client ids and
an oracle for `client.execute_function` marshalled over the manager's event
loop (any provider-side exception is the `Except.error` case). -/
structure MCPManagerModel where
  clients : List String
  call : String → String → List (String × PyVal) → Except String PyVal

/-- `MCPTool._run` from `unisonai/tools/mcp_tool.py` (lines 80-114): a missing
client id raises `MCP client <id> not found` carrying the local tool name; a
provider exception is wrapped as `Failed to execute MCP tool <name>: <e>`,
also carrying the local tool name. -/
def mcpRun (mgr : MCPManagerModel) (t : MCPToolState)
    (kwargs : List (String × PyVal)) : Except MCPToolExecErr PyVal :=
  if t.client_id ∈ mgr.clients then
    match mgr.call t.client_id t.mcp_tool_name kwargs with
    | .ok v => .ok v
    | .error e =>
        .error { message := "Failed to execute MCP tool " ++ apos ++ t._name
                   ++ apos ++ ": " ++ e,
                 tool_name := t._name }
  else
    .error { message := "MCP client " ++ apos ++ t.client_id ++ apos ++ " not found",
             tool_name := t._name }

/-- `BaseTool.execute` applied to a bridged tool: validation against the
instance's `_parameters`, then `MCPTool._run`, whose raised error is observed
through `str(e)` (its message). -/
def mcpExecute (mgr : MCPManagerModel) (t : MCPToolState) (dt : Nat)
    (kwargs : List (String × PyVal)) : ToolExecutionResult :=
  baseExecute t._parameters
    (fun vp =>
      match mcpRun mgr t vp with
      | .ok v => .ok v
      | .error e => .error e.message)
    dt kwargs

/-- Python's regex whitespace class over ASCII. -/
def isPyWs (c : Char) : Bool :=
  c = ' ' || c = '\t' || c = '\n' || c = '\r' || c = Char.ofNat 11 || c = Char.ofNat 12

/-- Left part of Python `str.strip`. -/
def stripL (l : List Char) : List Char := l.dropWhile isPyWs

/-- Right part of Python `str.strip`: drop trailing whitespace. -/
def stripR : List Char → List Char
  | [] => []
  | c :: cs =>
      let r := stripR cs
      if r.isEmpty && isPyWs c then [] else c :: r

/-- Python `str.strip` on characters. -/
def pyStrip (l : List Char) : List Char := stripR (stripL l)

/-- The maximal whitespace run at the head of a character list, with the
remainder. -/
def takeWsRun : List Char → List Char × List Char
  | [] => ([], [])
  | c :: cs =>
      if isPyWs c then
        let p := takeWsRun cs
        (c :: p.1, p.2)
      else ([], c :: cs)

/-- Consume a literal pattern at the head of a list. -/
def dropLit (pat l : List Char) : Option (List Char) :=
  if pat.isPrefixOf l then some (l.drop pat.length) else Option.none

/-- Consume a literal pattern case-insensitively (pattern given lowercase). -/
def dropLitCI (pat l : List Char) : Option (List Char) :=
  if (l.take pat.length).map Char.toLower = pat then some (l.drop pat.length)
  else Option.none

/-- The characters of a whitespace run after its last newline, or `none` when
the run contains no newline: this is where the greedy `\s*` of `\s*\n` ends
up after backtracking. -/
def afterLastNl (run : List Char) : Option (List Char) :=
  if '\n' ∈ run then some ((run.reverse.takeWhile fun c => c ≠ '\n').reverse)
  else Option.none

/-- Split at the first occurrence of a (nonempty) pattern: the part before it
and the part after it; `none` when the pattern does not occur.  This is the
lazy `(.*?)` followed by the literal pattern. -/
def splitOnSub (pat : List Char) : List Char → Option (List Char × List Char)
  | [] => Option.none
  | c :: cs =>
      if pat.isPrefixOf (c :: cs) then some ([], (c :: cs).drop pat.length)
      else
        match splitOnSub pat cs with
        | some p => some (c :: p.1, p.2)
        | Option.none => Option.none

/-- One anchored attempt of the fenced-block pattern
(`unisonai/single_agent.py` line 396, case-insensitive and DOTALL): three
backticks, `yaml` or `yml`, whitespace whose last character matched by
`\s*\n` is its last newline, then the lazy body up to `\n` + three backticks.
Returns the group and the remainder after the match. -/
def matchFenceAt (l : List Char) : Option (List Char × List Char) :=
  match dropLit ("```".data) l with
  | Option.none => Option.none
  | some r1 =>
      match
        match dropLitCI ("yaml".data) r1 with
        | some r => some r
        | Option.none => dropLitCI ("yml".data) r1
      with
      | Option.none => Option.none
      | some r2 =>
          let ws := takeWsRun r2
          match afterLastNl ws.1 with
          | Option.none => Option.none
          | some tailRun =>
              match splitOnSub ("\n```".data) (tailRun ++ ws.2) with
              | some p => some (p.1, p.2)
              | Option.none => Option.none

/-- The left-to-right non-overlapping scan of `re.findall` for the fenced
pattern; each recovered group is stripped (`single_agent.py` line 400).  The
fuel is the input length: every step consumes at least one character. -/
def findFencedGo : Nat → List Char → List String
  | 0, _ => []
  | _ + 1, [] => []
  | n + 1, c :: cs =>
      match matchFenceAt (c :: cs) with
      | some p => String.mk (pyStrip p.1) :: findFencedGo n p.2
      | Option.none => findFencedGo n cs

/-- All fenced `yaml` blocks of a response, in order. -/
def findFenced (s : String) : List String :=
  findFencedGo s.data.length s.data

/-- The lazy `.*?(?=\n\S|\Z)` of the fallback pattern (DOTALL): consume up to
(but excluding) the first newline that is followed by a non-whitespace
character, or to the end of the text. -/
def takeLazyBody : List Char → List Char × List Char
  | [] => ([], [])
  | c :: cs =>
      if c = '\n' && (match cs with | d :: _ => !(isPyWs d) | [] => false) then
        ([], c :: cs)
      else
        let p := takeLazyBody cs
        (c :: p.1, p.2)

/-- One anchored attempt of the fallback pattern `thoughts:\s*>` followed by
the lazy body (`single_agent.py` line 405, case-sensitive, DOTALL).  Returns
the whole match and the remainder (the lookahead consumes nothing). -/
def matchBareAt (l : List Char) : Option (List Char × List Char) :=
  match dropLit ("thoughts:".data) l with
  | Option.none => Option.none
  | some r1 =>
      let ws := takeWsRun r1
      match ws.2 with
      | c :: r2 =>
          if c = '>' then
            let body := takeLazyBody r2
            some (("thoughts:".data) ++ ws.1 ++ c :: body.1, body.2)
          else Option.none
      | [] => Option.none

/-- The `re.findall` scan for the fallback pattern; matches are appended
unstripped (`single_agent.py` line 407). -/
def findBareGo : Nat → List Char → List String
  | 0, _ => []
  | _ + 1, [] => []
  | n + 1, c :: cs =>
      match matchBareAt (c :: cs) with
      | some p => String.mk p.1 :: findBareGo n p.2
      | Option.none => findBareGo n cs

/-- All bare `thoughts: >` candidates of a response, in order. -/
def findBare (s : String) : List String :=
  findBareGo s.data.length s.data

/-- `Single_Agent._extract_yaml_blocks`: fenced blocks when any exist,
otherwise the bare fallback candidates. -/
def extractYamlBlocks (s : String) : List String :=
  let fenced := findFenced s
  if fenced.isEmpty then findBare s else fenced

/-- A YAML value inside a top-level mapping in the modelled fragment: a plain
string scalar or a one-level nested mapping of string scalars. -/
inductive YVal where
  | s (v : String)
  | m (entries : List (String × String))
deriving DecidableEq

/-- Split a line at its first colon, keeping YAML well-formedness of the
fragment: nonempty whitespace-free key, and either nothing or a space after
the colon. -/
def splitKeyGo (acc : List Char) : List Char → Option (List Char × List Char)
  | [] => Option.none
  | c :: cs => if c = ':' then some (acc.reverse, cs) else splitKeyGo (c :: acc) cs

/-- Key/rest decomposition of a mapping line in the modelled YAML fragment. -/
def splitKey (line : List Char) : Option (String × List Char) :=
  match splitKeyGo [] line with
  | some p =>
      if p.1 ≠ [] && p.1.all (fun c => !(isPyWs c)) &&
          (match p.2 with | [] => true | c :: _ => c = ' ') then
        some (String.mk p.1, p.2)
      else Option.none
  | Option.none => Option.none

/-- PyYAML's folded block scalar on the fragment: indented lines joined by
single spaces with a trailing newline. -/
def foldedJoin (blockLines : List (List Char)) : String :=
  String.intercalate (" ")
    (((blockLines.map fun l => String.mk (pyStrip l)).filter fun s => s ≠ "")) ++ "\n"

/-- An indented nested mapping block: each line is `  key: value` with a
plain scalar value. -/
def parseNested : List (List Char) → Option (List (String × String))
  | [] => some []
  | ln :: rest =>
      match splitKey (pyStrip ln) with
      | some p =>
          let v := pyStrip p.2
          if v ≠ [] && !(v.headD ' ' = '>') then
            match parseNested rest with
            | some es => some ((p.1, String.mk v) :: es)
            | Option.none => Option.none
          else Option.none
      | Option.none => Option.none

/-- Whether a line starts with whitespace (continuation/indented line). -/
def startsIndented (l : List Char) : Bool :=
  match l with
  | c :: _ => isPyWs c
  | [] => false

/-- Top-level mapping lines of the modelled YAML fragment: plain `key: value`
entries, folded scalars `key: >` with an indented block, and `key:` followed
by an indented nested mapping.  A `key: > inline` line is a PyYAML scanner
error and fails, as does anything else outside the fragment.  The fuel is the
number of lines: every step consumes at least one line. -/
def parseTopGo : Nat → List (List Char) → Option (List (String × YVal))
  | _, [] => some []
  | 0, _ :: _ => Option.none
  | n + 1, ln :: rest =>
      if pyStrip ln = [] then parseTopGo n rest
      else if startsIndented ln then Option.none
      else
        match splitKey ln with
        | Option.none => Option.none
        | some p =>
            let v := pyStrip p.2
            if v = (">".data) then
              let sp := rest.span fun l => startsIndented l || pyStrip l = []
              match parseTopGo n sp.2 with
              | some es => some ((p.1, YVal.s (foldedJoin sp.1)) :: es)
              | Option.none => Option.none
            else if v.headD ' ' = '>' then Option.none
            else if v = [] then
              let sp := rest.span startsIndented
              match parseNested sp.1, parseTopGo n sp.2 with
              | some nes, some es => some ((p.1, YVal.m nes) :: es)
              | _, _ => Option.none
            else
              match parseTopGo n rest with
              | some es => some ((p.1, YVal.s (String.mk v)) :: es)
              | Option.none => Option.none

/-- Top-level parse of the modelled YAML fragment. -/
def parseTopLevel (lines : List (List Char)) : Option (List (String × YVal)) :=
  parseTopGo lines.length lines

/-- Split a character list into lines at newlines. -/
def splitLinesGo (acc : List Char) : List Char → List (List Char)
  | [] => [acc.reverse]
  | c :: cs =>
      if c = '\n' then acc.reverse :: splitLinesGo [] cs
      else splitLinesGo (c :: acc) cs

/-- The lines of a string. -/
def splitLines (s : String) : List (List Char) :=
  splitLinesGo [] s.data

/-- Model of `yaml.safe_load` restricted to the fragment of documents this
development evaluates: top-level mappings whose values are plain string
scalars, folded scalars, or one-level nested mappings of string scalars.
`some` is a parsed mapping; `none` conflates a parse error and a non-mapping
document, which `_process_response` treats identically (the block is
skipped). -/
def miniYaml (s : String) : Option (List (String × YVal)) :=
  match parseTopLevel (splitLines s) with
  | some es => if es = [] then Option.none else some es
  | Option.none => Option.none

/-- The Command Blocks the response parser recovers from a response: each
extracted block that parses to a mapping. -/
def recoveredCommandBlocks (s : String) : List (List (String × YVal)) :=
  (extractYamlBlocks s).filterMap miniYaml

/-- `TaskResult` from `unisonai/types.py`.  Elapsed wall time is modelled by
the number of model invocations performed. -/
structure TaskResult where
  success : Bool
  result : String
  agent_identity : String
  execution_time : Option Nat
  iterations_used : Nat
  error : Option String := Option.none
deriving DecidableEq

/-- A registered tool instance as the loop sees it: declared parameters plus
the `_run` body, an oracle that may raise. -/
structure AgentTool where
  parameters : List ToolParameter
  run : List (String × PyVal) → Except String PyVal

/-- The `Single_Agent` configuration relevant to the loop: identity, the
iteration ceiling, whether an output file is configured, the `ask_user` flag
(initialised `True`) and the registered tool instances. -/
structure AgentCfg where
  identity : String
  max_iterations : Nat
  output_file : Bool
  ask_user : Bool := true
  tools : List (String × AgentTool)

/-- The loop's oracles: the language model (indexed by the number of prior
model invocations in the whole run; it may raise) and the `input()` source
(`none` models a `KeyboardInterrupt`). -/
structure AgentEnv where
  llm : Nat → Except String String
  userInput : Nat → Option String

/-- The mutable instance/file state the loop touches: `current_iteration`,
the model-invocation count, the `input()` count, the output-file content and
`self.user_task`. -/
structure AgentSt where
  cur : Nat
  calls : Nat
  reads : Nat
  output : Option String
  user_task : String
deriving DecidableEq

/-- Outcome of a modelled Python computation: normal return, a raised
exception, or fuel exhaustion (the modelling artefact for nontermination;
it propagates through every handler). -/
inductive Out (α : Type) where
  | ok (a : α)
  | exn (e : String)
  | fuelOut
deriving DecidableEq

/-- Python `repr` of a primitive, as it appears inside container reprs. -/
def reprPyPrim : PyPrim → String
  | .none => "None"
  | .str s => apos ++ s ++ apos
  | .int n => toString n
  | .float q => toString q
  | .bool b => if b then ("True") else ("False")

/-- Python `str()` of a modelled value, used when a tool result is spliced
into the continuation prompt. -/
def renderPyVal : PyVal → String
  | .none => "None"
  | .str s => s
  | .int n => toString n
  | .float q => toString q
  | .bool b => if b then ("True") else ("False")
  | .list es => "[" ++ String.intercalate (", ") (es.map reprPyPrim) ++ "]"
  | .dict es =>
      "\x7b" ++
        String.intercalate (", ")
          (es.map fun kv => apos ++ kv.1 ++ apos ++ ": " ++ reprPyPrim kv.2) ++
      "\x7d"

/-- The record `Single_Agent._save_results` writes to the output file. -/
def saveFormat (identity task result : String) : String :=
  "Agent: " ++ identity ++ "\nTask: " ++ task ++ "\nResult:\n" ++ result ++ "\n"

/-- Lower-casing of an ASCII response (`response.lower()`). -/
def lowerStr (s : String) : String :=
  String.mk (s.data.map Char.toLower)

/-- The fixed phrase set of `Single_Agent._is_task_complete`. -/
def completionIndicators : List String :=
  ["pass_result", "task complete", "final result", "conclusion", "summary"]

/-- `Single_Agent._is_task_complete`: case-insensitive containment of any
fixed phrase. -/
def isTaskComplete (response : String) : Bool :=
  completionIndicators.any fun ind => containsStr (lowerStr response) ind

/-- The type of the re-entrant `unleash` callback threaded through the
dispatch helpers; `none` is fuel exhaustion. -/
abbrev UnleashCb := String → AgentSt → Option TaskResult × AgentSt

/-- `Single_Agent._handle_pass_result`: reads `params.get("result", "Task
completed.")` (an `AttributeError` if params is a plain string), writes the
output file when one is configured, and reports a dispatched command. -/
def handlePassResult (cfg : AgentCfg) (params : YVal) (st : AgentSt) :
    Out Bool × AgentSt :=
  match params with
  | .s _ => (.exn ("AttributeError: str object has no attribute get"), st)
  | .m kvs =>
      let result := (kvs.lookup ("result")).getD ("Task completed.")
      if cfg.output_file then
        (.ok true, { st with output := some (saveFormat cfg.identity st.user_task result) })
      else (.ok true, st)

/-- `Single_Agent._handle_ask_user`: disabled flag short-circuits; a
`KeyboardInterrupt` during `input()` yields no dispatch; otherwise the answer
re-enters `unleash` and the dispatch reports success regardless of the nested
result. -/
def handleAskUser (cfg : AgentCfg) (env : AgentEnv) (cb : UnleashCb)
    (params : YVal) (st : AgentSt) : Out Bool × AgentSt :=
  if !cfg.ask_user then (.ok false, st)
  else
    match params with
    | .s _ => (.exn ("AttributeError: str object has no attribute get"), st)
    | .m _ =>
        match env.userInput st.reads with
        | Option.none => (.ok false, { st with reads := st.reads + 1 })
        | some ans =>
            match cb ans { st with reads := st.reads + 1 } with
            | (Option.none, st') => (.fuelOut, st')
            | (some _, st') => (.ok true, st')

/-- `Single_Agent._execute_custom_tool`: unknown names report no dispatch;
non-mapping params make `execute(**params)` raise a `TypeError` that the
broad handler turns into no dispatch; a successful execution re-enters
`unleash` with `Tool response: <result>` and reports a dispatch; a failed
execution reports no dispatch. -/
def executeCustomTool (cfg : AgentCfg) (cb : UnleashCb) (tool_name : String)
    (params : YVal) (st : AgentSt) : Out Bool × AgentSt :=
  match cfg.tools.lookup tool_name with
  | Option.none => (.ok false, st)
  | some tool =>
      match params with
      | .s _ => (.ok false, st)
      | .m kvs =>
          let r := baseExecute tool.parameters tool.run 0
            (kvs.map fun kv => (kv.1, PyVal.str kv.2))
          if r.success then
            match cb ("Tool response: " ++ renderPyVal r.result) st with
            | (Option.none, st') => (.fuelOut, st')
            | (some _, st') => (.ok true, st')
          else (.ok false, st)

/-- `Single_Agent._execute_tool_from_yaml`: no `name` key means no dispatch;
`params` defaults to an empty mapping; the reserved verbs are matched first
and any other (string) name goes to the custom-tool path.  A non-string name
reaches the dict-membership test and raises. -/
def executeToolFromYaml (cfg : AgentCfg) (env : AgentEnv) (cb : UnleashCb)
    (es : List (String × YVal)) (st : AgentSt) : Out Bool × AgentSt :=
  match es.lookup ("name") with
  | Option.none => (.ok false, st)
  | some nameVal =>
      let params := (es.lookup ("params")).getD (YVal.m [])
      match nameVal with
      | .s n =>
          if n = "ask_user" then handleAskUser cfg env cb params st
          else if n = "pass_result" then handlePassResult cfg params st
          else executeCustomTool cfg cb n params st
      | .m _ => (.exn ("TypeError: unhashable type in tool name"), st)

/-- The block loop of `Single_Agent._process_response`: parse failures and
non-mapping blocks are skipped, dispatch results are or-accumulated, and a
raised dispatch exception aborts the loop (only `yaml.YAMLError` is caught
there). -/
def processBlocks (cfg : AgentCfg) (env : AgentEnv) (cb : UnleashCb) :
    List String → Bool → AgentSt → Out Bool × AgentSt
  | [], acc, st => (.ok acc, st)
  | b :: bs, acc, st =>
      match miniYaml b with
      | Option.none => processBlocks cfg env cb bs acc st
      | some es =>
          match executeToolFromYaml cfg env cb es st with
          | (.ok r, st') => processBlocks cfg env cb bs (acc || r) st'
          | other => other

/-- `Single_Agent._process_response`: empty responses and responses with no
recovered blocks dispatch nothing. -/
def processResponse (cfg : AgentCfg) (env : AgentEnv) (cb : UnleashCb)
    (response : String) (st : AgentSt) : Out Bool × AgentSt :=
  if response = "" then (.ok false, st)
  else processBlocks cfg env cb (extractYamlBlocks response) false st

/-- The three mutually re-entrant methods of `Single_Agent` at one fuel
level. -/
structure Sem where
  loop : String → AgentSt → Out String × AgentSt
  execTask : String → Nat → AgentSt → Out TaskResult × AgentSt
  unleash : String → AgentSt → Option TaskResult × AgentSt

/-- Fuel-exhausted semantics.  The `while` guard of `_run_task_loop` is
checked before any work, so even the bottom level returns the current
response when the ceiling is already reached. -/
def botSem (cfg : AgentCfg) : Sem :=
  { loop := fun resp st =>
      if st.cur < cfg.max_iterations then (.fuelOut, st) else (.ok resp, st)
    execTask := fun _ _ st => (.fuelOut, st)
    unleash := fun _ st => (Option.none, st) }

/-- One fuel level of the `Single_Agent` semantics.

* `loop` is one iteration of `_run_task_loop` (lines 291-317): guard, counter
  increment, model invocation (the oracle index is the number of prior
  invocations), `_process_response`, then either the completion break or the
  next iteration at the previous level.
* `execTask` is `_execute_task` (lines 212-237): set `self.user_task`, run
  the loop, write the output file when configured and build the success
  `TaskResult` (history loading and LLM priming touch no modelled state).
* `unleash` is `unleash` (lines 181-210): reset the counter, delegate, and
  convert a raised exception into a failed `TaskResult` carrying elapsed
  time and the current iteration count.  Nested re-entry (`ask_user`,
  successful custom tools) uses the previous level's `unleash`. -/
def stepSem (cfg : AgentCfg) (env : AgentEnv) (prev : Sem) : Sem :=
  let loop : String → AgentSt → Out String × AgentSt := fun response st =>
    if st.cur < cfg.max_iterations then
      let st1 : AgentSt := { st with cur := st.cur + 1 }
      match env.llm st1.calls with
      | .error e => (.exn e, { st1 with calls := st1.calls + 1 })
      | .ok resp =>
          let st2 : AgentSt := { st1 with calls := st1.calls + 1 }
          match processResponse cfg env prev.unleash resp st2 with
          | (.ok executed, st3) =>
              if !executed && isTaskComplete resp then (.ok resp, st3)
              else prev.loop resp st3
          | (.exn e, st3) => (.exn e, st3)
          | (.fuelOut, st3) => (.fuelOut, st3)
    else (.ok response, st)
  let execTask : String → Nat → AgentSt → Out TaskResult × AgentSt :=
    fun task startCalls st =>
      let stT : AgentSt := { st with user_task := task }
      match loop ("") stT with
      | (.ok resp, st') =>
          let st'' : AgentSt :=
            if cfg.output_file then
              { st' with output := some (saveFormat cfg.identity st'.user_task resp) }
            else st'
          (.ok { success := true, result := resp, agent_identity := cfg.identity,
                 execution_time := some (st'.calls - startCalls),
                 iterations_used := st'.cur }, st'')
      | (.exn e, st') => (.exn e, st')
      | (.fuelOut, st') => (.fuelOut, st')
  let unleash : String → AgentSt → Option TaskResult × AgentSt := fun task st =>
    let startCalls := st.calls
    let stT : AgentSt := { st with cur := 0 }
    match execTask task startCalls stT with
    | (.ok tr, st') => (some tr, st')
    | (.exn e, st') =>
        (some { success := false,
                result := "Task execution failed due to critical error",
                agent_identity := cfg.identity,
                execution_time := some (st'.calls - startCalls),
                iterations_used := st'.cur,
                error := some ("Task execution failed: " ++ e) }, st')
    | (.fuelOut, st') => (Option.none, st')
  { loop := loop, execTask := execTask, unleash := unleash }

/-- The fuel-indexed semantics of `Single_Agent`. -/
def semAt (cfg : AgentCfg) (env : AgentEnv) : Nat → Sem
  | 0 => botSem cfg
  | n + 1 => stepSem cfg env (semAt cfg env n)

/-- The initial instance/file state of a fresh task run. -/
def st0A : AgentSt :=
  { cur := 0, calls := 0, reads := 0, output := Option.none, user_task := "" }

/-- A recovered block that dispatches nothing and leaves the state unchanged:
it fails to parse, is not a mapping, lacks a `name`, or names an unknown
tool. -/
def inertBlock (cfg : AgentCfg) (b : String) : Bool :=
  match miniYaml b with
  | Option.none => true
  | some es =>
      match es.lookup ("name") with
      | Option.none => true
      | some (.s n) =>
          !(n == "ask_user") && !(n == "pass_result") && (cfg.tools.lookup n).isNone
      | some (.m _) => false

/-- A response on which `_process_response` dispatches nothing. -/
def inertResponse (cfg : AgentCfg) (resp : String) : Bool :=
  resp == "" || (extractYamlBlocks resp).all (inertBlock cfg)

/-- A response whose only recovered block is a `pass_result` command with a
string result `r` in its params mapping. -/
def passOnlyResp (resp : String) (r : String) : Bool :=
  match extractYamlBlocks resp with
  | [b] =>
      match miniYaml b with
      | some es =>
          (match es.lookup ("name") with
           | some (.s n) => n == "pass_result"
           | _ => false) &&
          (match es.lookup ("params") with
           | some (.m kvs) => kvs.lookup ("result") == some r
           | _ => false)
      | Option.none => false
  | _ => false

/-- A response on which the parser recovers exactly one `pass_result` command
block whose params mapping binds `result` to `r`. -/
def passOnlyProp (resp r : String) : Prop :=
  ∃ b es kvs, extractYamlBlocks resp = [b] ∧ miniYaml b = some es ∧
    es.lookup ("name") = some (.s ("pass_result")) ∧
    es.lookup ("params") = some (.m kvs) ∧
    kvs.lookup ("result") = some r

/-- A fenced model response carrying one `pass_result` command block. -/
def respPass : String :=
  "```yaml\nthoughts: done\nname: pass_result\nparams:\n  result: finished\n```"

/-- A fenced model response calling the custom tool `t`. -/
def respTool : String :=
  "```yaml\nthoughts: call the helper\nname: t\nparams:\n  x: hi\n```"

/-- A free-text response with no command block and no completion phrase. -/
def respCalm : String := "keep going please"

/-- A tool instance without declared parameters whose body always succeeds. -/
def toolHelper : AgentTool :=
  { parameters := [], run := fun _ => .ok (.str ("done")) }

/-- Agent configuration for the pass-result scenario: ceiling 2, output sink
configured, no tools. -/
def cfgPass : AgentCfg :=
  { identity := "agent", max_iterations := 2, output_file := true, tools := [] }

/-- Agent configuration with ceiling 1 and the tool `t` registered. -/
def cfgTool : AgentCfg :=
  { identity := "agent", max_iterations := 1, output_file := false,
    tools := [("t", toolHelper)] }

/-- Agent configuration with ceiling 3, no output sink, no tools. -/
def cfgCalm : AgentCfg :=
  { identity := "agent", max_iterations := 3, output_file := false, tools := [] }

/-- A model that answers every invocation with the `pass_result` block. -/
def envPass : AgentEnv :=
  { llm := fun _ => .ok respPass, userInput := fun _ => Option.none }

/-- A model that answers every invocation with the tool-call block. -/
def envTool : AgentEnv :=
  { llm := fun _ => .ok respTool, userInput := fun _ => Option.none }

/-- A model that answers every invocation with inert free text. -/
def envCalm : AgentEnv :=
  { llm := fun _ => .ok respCalm, userInput := fun _ => Option.none }

/-- A model whose every invocation raises. -/
def envRaise : AgentEnv :=
  { llm := fun _ => .error ("boom"), userInput := fun _ => Option.none }

/-- The state reached after iteration 1 consumed the model response, in the
pass-result scenario. -/
def stMid : AgentSt :=
  { cur := 1, calls := 1, reads := 0, output := Option.none, user_task := "task0" }

/-- A bridged tool whose registry key is absent (the shape the MCP tests
construct, with the post-constructor empty parameter list). -/
def mcpMissing : MCPToolState :=
  { _name := "test-tool", _description := "Test", _parameters := [],
    _legacy_params := [], client_id := "missing_client",
    mcp_tool_name := "original_tool" }

/-- A session registry with no live clients. -/
def mgrEmpty : MCPManagerModel :=
  { clients := [], call := fun _ _ _ => .error ("unreachable") }

/-- An optional integer parameter (no default). -/
def pIntOpt : ToolParameter :=
  { name := "x", param_type := .integer, required := false }

/-- A required string parameter with a non-null default. -/
def pDefStr : ToolParameter :=
  { name := "x", default_value := PyVal.str ("d") }

/-- The inline-thoughts fragment of the fallback-parser scenario. -/
def c8Thoughts : String := "I will call tool_a"

/-- The tail of the fallback-parser scenario: the next top-level keys. -/
def c8Tail : String := "\nname: tool_a\nparams: >\n  \x7b\"k\":\"v\"\x7d"

/-- A model response of the shape the fallback-parser property quantifies
over: a bare `thoughts: > ...` line followed by `name: tool_a` and a params
mapping, with no code fence anywhere. -/
def mkTextC8 (t : String) : String := "thoughts: > " ++ t ++ c8Tail

/-- The per-parameter loop of `validate_parameters`, characterized: it
appends to the accumulators exactly the passing bindings and the messages of
the failing required parameters. -/
theorem validateGo_spec (kwargs : List (String × PyVal)) (ps : List ToolParameter) :
    ∀ acc errs, validateGo kwargs ps acc errs =
      (acc ++ collectValidated kwargs ps,
       errs ++ (requiredOffenders kwargs ps).map
         (fun n => "Invalid or missing required parameter " ++ apos ++ n ++ apos)) := by
  induction ps with
  | nil => intro acc errs; simp [validateGo, collectValidated, requiredOffenders]
  | cons p ps ih =>
      intro acc errs
      by_cases h : validate_value p (effectiveValue p kwargs) = true
      · simp [validateGo, collectValidated, requiredOffenders, h, ih]
      · rw [Bool.not_eq_true] at h
        by_cases hr : p.required = true
        · simp [validateGo, collectValidated, requiredOffenders, h, hr, ih]
        · rw [Bool.not_eq_true] at hr
          simp [validateGo, collectValidated, requiredOffenders, h, hr, ih]

/-- C3 (amended): `validate_parameters` raises a `ValueError` listing every
offending parameter name if and only if some *required* declared parameter's
effective value (raw value if present and non-null, else the default) fails
`validate_value` (null, type mismatch, out of range, or not among the
choices); otherwise it returns the validated mapping.  A declared *optional*
parameter whose effective value fails validation raises nothing: it is
silently omitted from the returned mapping. -/
theorem c3_validate_raises_iff_required_offender (params : List ToolParameter)
    (kwargs : List (String × PyVal)) :
    validate_parameters params kwargs =
      if requiredOffenders kwargs params = [] then
        .ok (collectValidated kwargs params)
      else .error (renderValidationError (requiredOffenders kwargs params)) := by
  unfold validate_parameters renderValidationError
  rw [validateGo_spec]
  by_cases h : requiredOffenders kwargs params = []
  · simp [h]
  · simp [h]

/-- C3 counterexample: the declared optional parameter `x : integer` is
supplied the string `"abc"`; its effective value is non-null and fails the
type check, so the claim demands a `ValidationError`, yet `validate_parameters`
returns a successful (empty) mapping, silently dropping the parameter. -/
theorem c3_counterexample :
    validate_parameters [pIntOpt] [("x", PyVal.str ("abc"))] = .ok [] ∧
    effectiveValue pIntOpt [("x", PyVal.str ("abc"))] = PyVal.str ("abc") ∧
    typeOk pIntOpt.param_type (PyVal.str ("abc")) = false ∧
    validate_value pIntOpt (PyVal.str ("abc")) = false :=
  ⟨rfl, rfl, rfl, rfl⟩

/-- C2: for every tool (any parameter schema and any `_run` behaviour,
including a raising one) and every keyword mapping, `execute` returns an
Execution Result record: it fails exactly when validation or the tool body
raises, a failed result carries `success = false` with an error message, a
successful result carries `success = true` with no error, and the measured
execution time is always recorded.  `baseExecute` is total, so no exception
escapes. -/
theorem c2_execute_never_throws (params : List ToolParameter)
    (run : List (String × PyVal) → Except String PyVal) (dt : Nat)
    (kwargs : List (String × PyVal)) :
    ((baseExecute params run dt kwargs).success = false ↔
      executeFails params run kwargs = true) ∧
    ((baseExecute params run dt kwargs).success = false →
      ∃ m, (baseExecute params run dt kwargs).error =
        some ("Tool execution failed: " ++ m)) ∧
    ((baseExecute params run dt kwargs).success = true →
      (baseExecute params run dt kwargs).error = Option.none) ∧
    (baseExecute params run dt kwargs).execution_time = some dt := by
  unfold baseExecute executeFails
  rcases h : validate_parameters params kwargs with e | vp
  · simp [h]
  · rcases h2 : run vp with e2 | v <;> simp [h, h2]

/-- C9 (amended): the default is substituted exactly when the looked-up value
is null — whether the key is absent or explicitly bound to null, which
`kwargs.get` cannot distinguish — and a non-null caller-supplied value is
never replaced by the default. -/
theorem c9_default_on_null (p : ToolParameter) (kwargs : List (String × PyVal)) :
    (∀ v, getKwarg kwargs p.name = v → v ≠ PyVal.none → effectiveValue p kwargs = v) ∧
    (getKwarg kwargs p.name = PyVal.none → p.default_value ≠ PyVal.none →
      effectiveValue p kwargs = p.default_value) ∧
    (kwargs.lookup p.name = some PyVal.none → getKwarg kwargs p.name = PyVal.none) := by
  refine ⟨?_, ?_, ?_⟩
  · intro v hv hne
    unfold effectiveValue
    rw [hv, if_neg]
    intro hcon
    exact hne hcon.1
  · intro hv hd
    unfold effectiveValue
    rw [hv, if_pos ⟨rfl, hd⟩]
  · intro hv
    unfold getKwarg
    rw [hv]

/-- C9 witness: instantiating the amended theorem at a parameter with default
`"d"` and a caller-supplied explicit null. -/
theorem c9_default_on_null_witness :
    effectiveValue pDefStr [("x", PyVal.none)] = PyVal.str ("d") :=
  (c9_default_on_null pDefStr [("x", PyVal.none)]).2.1 rfl (by decide)

/-- C9 counterexample: the caller supplies the key `x` (bound to null), yet
`validate_parameters` substitutes the default `"d"` for the caller-supplied
value, contradicting the claim that a supplied key is never defaulted. -/
theorem c9_counterexample :
    List.lookup ("x") [("x", PyVal.none)] = some PyVal.none ∧
    validate_parameters [pDefStr] [("x", PyVal.none)] = .ok [("x", PyVal.str ("d"))] :=
  ⟨rfl, rfl⟩

/-- C10: whatever arguments `MCPTool.__init__` receives, the trailing
`super().__init__()` call reinitializes the `BaseTool` backing attributes, so
the constructed instance has empty name, empty description and an empty
parameter list, while the bridge-specific plain attributes survive. -/
theorem c10_init_resets_attributes (name descr : String) (schema : MCPSchema)
    (cid mtn : String) :
    (mcpToolInit name descr schema cid mtn)._name = "" ∧
    (mcpToolInit name descr schema cid mtn)._description = "" ∧
    (mcpToolInit name descr schema cid mtn)._parameters = [] ∧
    (mcpToolInit name descr schema cid mtn)._legacy_params = [] ∧
    (mcpToolInit name descr schema cid mtn).client_id = cid ∧
    (mcpToolInit name descr schema cid mtn).mcp_tool_name = mtn :=
  ⟨rfl, rfl, rfl, rfl, rfl, rfl⟩

/-- C7 (amended): invoking a bridged tool whose session key is absent from
the registry returns a failed Execution Result whose error message names the
*missing client id*; the local tool name is carried on the raised
`MCPToolExecutionError`'s `tool_name` attribute, not in the result's error
message; and no exception propagates past `execute` (`mcpExecute` returns a
result record). -/
theorem c7_bridge_failure_surfacing (mgr : MCPManagerModel) (t : MCPToolState)
    (dt : Nat) (kwargs : List (String × PyVal))
    (hp : t._parameters = []) (hc : t.client_id ∉ mgr.clients) :
    mcpExecute mgr t dt kwargs =
      { success := false, result := PyVal.none,
        error := some ("Tool execution failed: MCP client " ++ apos ++
          t.client_id ++ apos ++ " not found"),
        execution_time := some dt } ∧
    mcpRun mgr t [] = .error
      { message := "MCP client " ++ apos ++ t.client_id ++ apos ++ " not found",
        tool_name := t._name } := by
  have hrun : mcpRun mgr t [] = .error
      { message := "MCP client " ++ apos ++ t.client_id ++ apos ++ " not found",
        tool_name := t._name } := by
    unfold mcpRun
    rw [if_neg hc]
  refine ⟨?_, hrun⟩
  unfold mcpExecute baseExecute
  rw [hp]
  simp [validate_parameters, validateGo, hrun]
  apply String.ext
  simp only [String.data_append, List.append_assoc]
  rw [← List.append_assoc]
  congr 1

/-- C7 witness: the amended theorem applied to the empty registry and the
concrete bridged tool `test-tool` with key `missing_client`. -/
theorem c7_bridge_failure_surfacing_witness :
    mcpExecute mgrEmpty mcpMissing 0 [] =
      { success := false, result := PyVal.none,
        error := some ("Tool execution failed: MCP client " ++ apos ++
          "missing_client" ++ apos ++ " not found"),
        execution_time := some 0 } ∧
    mcpRun mgrEmpty mcpMissing [] = .error
      { message := "MCP client " ++ apos ++ "missing_client" ++ apos ++ " not found",
        tool_name := "test-tool" } :=
  c7_bridge_failure_surfacing mgrEmpty mcpMissing 0 [] rfl (by decide)

/-- C7 counterexample: for the bridged tool locally named `test-tool` with
missing key `missing_client`, the failed result's error message does not
mention the local tool name at all — it names only the client id — so the
claim that the error message names the local tool is false. -/
theorem c7_counterexample :
    (mcpExecute mgrEmpty mcpMissing 0 []).success = false ∧
    (mcpExecute mgrEmpty mcpMissing 0 []).error =
      some ("Tool execution failed: MCP client " ++ apos ++
        "missing_client" ++ apos ++ " not found") ∧
    containsStr ("Tool execution failed: MCP client " ++ apos ++
      "missing_client" ++ apos ++ " not found") "test-tool" = false := by
  refine ⟨rfl, rfl, by decide⟩

/-- C2 witness: a parameterless tool whose body raises yields a failed result
with the wrapped message. -/
theorem c2_execute_never_throws_witness :
    ∃ m, (baseExecute [] (fun _ => Except.error ("kaboom")) 7 []).error =
      some ("Tool execution failed: " ++ m) :=
  (c2_execute_never_throws [] (fun _ => Except.error ("kaboom")) 7 []).2.1 rfl

/-- C4: whenever the task-attempt body (`_run_task_loop` inside
`_execute_task`) raises, `unleash` returns a failed `TaskResult` — it is
`some` result, never a re-raised exception and never fuel exhaustion —
carrying the elapsed time (model-invocation delta) and the iteration count at
the moment of the failure, with the wrapped message. -/
theorem c4_critical_exception_caught (cfg : AgentCfg) (env : AgentEnv) (f : Nat)
    (task : String) (st : AgentSt) (e : String) (st' : AgentSt)
    (hloop : (semAt cfg env (f + 1)).loop ("") { st with cur := 0, user_task := task } =
      (.exn e, st')) :
    (semAt cfg env (f + 1)).unleash task st =
      (some { success := false,
              result := "Task execution failed due to critical error",
              agent_identity := cfg.identity,
              execution_time := some (st'.calls - st.calls),
              iterations_used := st'.cur,
              error := some ("Task execution failed: " ++ e) }, st') := by
  simp only [semAt, stepSem] at hloop ⊢
  rw [hloop]

/-- C4 witness: a model whose first invocation raises `boom`, under ceiling 3:
the run ends in a failed result after one iteration and one invocation. -/
theorem c4_critical_exception_caught_witness :
    (semAt cfgCalm envRaise 4).unleash ("task0") st0A =
      (some { success := false,
              result := "Task execution failed due to critical error",
              agent_identity := "agent",
              execution_time := some 1,
              iterations_used := 1,
              error := some ("Task execution failed: " ++ "boom") },
       { cur := 1, calls := 1, reads := 0, output := Option.none,
         user_task := "task0" }) :=
  c4_critical_exception_caught cfgCalm envRaise 3 ("task0") st0A ("boom")
    { cur := 1, calls := 1, reads := 0, output := Option.none, user_task := "task0" }
    rfl

/-- C6: whenever the loop of a task attempt completes without raising — in
particular when it exhausts `max_iterations` — `unleash` returns a successful
`TaskResult` whose `result` is the loop's final model response; exhausting
the ceiling is never reported as an error. -/
theorem c6_exhaustion_is_success (cfg : AgentCfg) (env : AgentEnv) (f : Nat)
    (task : String) (st : AgentSt) (resp : String) (st₂ : AgentSt)
    (hloop : (semAt cfg env (f + 1)).loop ("") { st with cur := 0, user_task := task } =
      (.ok resp, st₂))
    (_hex : st₂.cur = cfg.max_iterations) :
    (semAt cfg env (f + 1)).unleash task st =
      (some { success := true, result := resp, agent_identity := cfg.identity,
              execution_time := some (st₂.calls - st.calls),
              iterations_used := st₂.cur, error := Option.none },
       if cfg.output_file then
         { st₂ with output := some (saveFormat cfg.identity st₂.user_task resp) }
       else st₂) := by
  simp only [semAt, stepSem] at hloop ⊢
  rw [hloop]

/-- C6 witness: an inert model under ceiling 3 exhausts the iterations and
the run is reported as a success whose result is the final response. -/
theorem c6_exhaustion_is_success_witness :
    (semAt cfgCalm envCalm 4).unleash ("task0") st0A =
      (some { success := true, result := respCalm, agent_identity := "agent",
              execution_time := some 3, iterations_used := 3,
              error := Option.none },
       { cur := 3, calls := 3, reads := 0, output := Option.none,
         user_task := "task0" }) :=
  c6_exhaustion_is_success cfgCalm envCalm 3 ("task0") st0A respCalm
    { cur := 3, calls := 3, reads := 0, output := Option.none, user_task := "task0" }
    rfl rfl

set_option maxRecDepth 100000 in
/-- C1 counterexample: with ceiling 2 and a model that answers every turn
with the `pass_result` block, iteration 1 dispatches `pass_result` (the
dispatch returns `True` and persists `finished` to the output sink), yet the
run performs a second iteration and a second model invocation — so a
`pass_result` dispatch is not a terminal transition.  The run still ends with
`success = true` (at the ceiling, not at the dispatch). -/
theorem c1_counterexample :
    cfgPass.max_iterations = 2 ∧
    processResponse cfgPass envPass ((semAt cfgPass envPass 4).unleash) respPass stMid =
      (.ok true, { stMid with output := some (saveFormat ("agent") "task0" "finished") }) ∧
    ((semAt cfgPass envPass 5).unleash ("task0") st0A).2.calls = 2 ∧
    ((semAt cfgPass envPass 5).unleash ("task0") st0A).2.cur = 2 ∧
    ((semAt cfgPass envPass 5).unleash ("task0") st0A).1 =
      some { success := true, result := respPass, agent_identity := "agent",
             execution_time := some 2, iterations_used := 2,
             error := Option.none } :=
  ⟨rfl, rfl, rfl, rfl, rfl⟩

set_option maxRecDepth 100000 in
/-- C5 counterexample: with ceiling 1 and a model that never emits
`pass_result` nor any completion phrase but always calls the registered tool
`t` successfully, each successful dispatch re-enters `unleash`, resets the
iteration counter and invokes the model again: at modelling fuel 6 the run
has already performed 6 model invocations (the claim demands exactly 1) and
is still not terminated. -/
theorem c5_counterexample :
    cfgTool.max_iterations = 1 ∧
    isTaskComplete respTool = false ∧
    containsStr (lowerStr respTool) "pass_result" = false ∧
    ((semAt cfgTool envTool 6).unleash ("task0") st0A).2.calls = 6 ∧
    ((semAt cfgTool envTool 6).unleash ("task0") st0A).1 = Option.none :=
  ⟨rfl, rfl, rfl, rfl, rfl⟩

/-- A command block without a `name` key dispatches nothing. -/
theorem dispatch_no_name (cfg : AgentCfg) (env : AgentEnv) (cb : UnleashCb)
    (es : List (String × YVal)) (st : AgentSt)
    (h : es.lookup ("name") = Option.none) :
    executeToolFromYaml cfg env cb es st = (.ok false, st) := by
  unfold executeToolFromYaml
  rw [h]

/-- A command block naming an unregistered tool dispatches nothing. -/
theorem dispatch_unknown_tool (cfg : AgentCfg) (env : AgentEnv) (cb : UnleashCb)
    (es : List (String × YVal)) (st : AgentSt) (n : String)
    (h : es.lookup ("name") = some (.s n))
    (h1 : n ≠ "ask_user") (h2 : n ≠ "pass_result")
    (h3 : cfg.tools.lookup n = Option.none) :
    executeToolFromYaml cfg env cb es st = (.ok false, st) := by
  unfold executeToolFromYaml executeCustomTool
  rw [h]
  simp only [if_neg h1, if_neg h2, h3]

/-- An inert block's parsed mapping dispatches nothing and leaves the state
unchanged. -/
theorem inertBlock_dispatch (cfg : AgentCfg) (env : AgentEnv) (cb : UnleashCb)
    (b : String) (es : List (String × YVal)) (st : AgentSt)
    (hb : inertBlock cfg b = true) (hm : miniYaml b = some es) :
    executeToolFromYaml cfg env cb es st = (.ok false, st) := by
  unfold inertBlock at hb
  simp only [hm] at hb
  match hn : es.lookup ("name") with
  | Option.none => exact dispatch_no_name cfg env cb es st hn
  | some (.s n) =>
      simp only [hn, Bool.and_eq_true, Bool.not_eq_true', beq_eq_false_iff_ne,
        Option.isNone_iff_eq_none] at hb
      exact dispatch_unknown_tool cfg env cb es st n hn hb.1.1 hb.1.2 hb.2
  | some (.m kvs) =>
      simp only [hn] at hb
      exact Bool.noConfusion hb

/-- A list of inert blocks dispatches nothing and leaves the state
unchanged. -/
theorem inert_blocks (cfg : AgentCfg) (env : AgentEnv) (cb : UnleashCb) :
    ∀ (bs : List String) (acc : Bool) (st : AgentSt),
      bs.all (inertBlock cfg) = true →
      processBlocks cfg env cb bs acc st = (.ok acc, st) := by
  intro bs
  induction bs with
  | nil => intro acc st _; rfl
  | cons b bs ih =>
      intro acc st h
      rw [List.all_cons, Bool.and_eq_true] at h
      unfold processBlocks
      match hm : miniYaml b with
      | Option.none =>
          simp only [hm]
          exact ih acc st h.2
      | some es =>
          simp only [hm, inertBlock_dispatch cfg env cb b es st h.1 hm, Bool.or_false]
          exact ih acc st h.2

/-- `_process_response` on an inert response dispatches nothing and leaves
the state unchanged. -/
theorem inert_process (cfg : AgentCfg) (env : AgentEnv) (cb : UnleashCb)
    (resp : String) (st : AgentSt) (h : inertResponse cfg resp = true) :
    processResponse cfg env cb resp st = (.ok false, st) := by
  unfold inertResponse at h
  unfold processResponse
  by_cases he : resp = ""
  · rw [if_pos he]
  · rw [if_neg he]
    have : (resp == "") = false := by simpa using he
    rw [this, Bool.false_or] at h
    exact inert_blocks cfg env cb (extractYamlBlocks resp) false st h

/-- `_process_response` on a pass-result-only response dispatches the
`pass_result` command: it returns `True` and persists the result to the
output sink when one is configured. -/
theorem pass_process (cfg : AgentCfg) (env : AgentEnv) (cb : UnleashCb)
    (resp rv : String) (st : AgentSt) (h : passOnlyProp resp rv) :
    processResponse cfg env cb resp st =
      (.ok true,
       if cfg.output_file then
         { st with output := some (saveFormat cfg.identity st.user_task rv) }
       else st) := by
  obtain ⟨b, es, kvs, hx, hm, hname, hparams, hres⟩ := h
  unfold processResponse
  have hne : resp ≠ "" := by
    intro he
    rw [he] at hx
    have : extractYamlBlocks ("") = [] := rfl
    rw [this] at hx
    cases hx
  rw [if_neg hne, hx]
  unfold processBlocks
  unfold executeToolFromYaml
  simp only [hm, hname, hparams, Option.getD_some, if_true, ite_true]
  unfold handlePassResult
  simp only [hres, Option.getD_some]
  by_cases hof : cfg.output_file = true
  · simp only [hof, if_true, ite_true]
    unfold processBlocks
    rfl
  · rw [Bool.not_eq_true] at hof
    simp only [hof, Bool.false_eq_true, if_false, ite_false]
    unfold processBlocks
    rfl

/-- The task loop under a model whose every response dispatches uniformly
(with a state update that touches neither the counter, the invocation count
nor the task) and never triggers the completion break: it runs to the
iteration ceiling, performing exactly one model invocation per remaining
iteration. -/
theorem loop_runs_ceiling (cfg : AgentCfg) (env : AgentEnv) (r : Nat → String)
    (ex : Nat → Bool) (upd : AgentSt → Nat → AgentSt)
    (hllm : ∀ k, env.llm k = .ok (r k))
    (hproc : ∀ cb st k, processResponse cfg env cb (r k) st = (.ok (ex k), upd st k))
    (hcur : ∀ st k, (upd st k).cur = st.cur)
    (hcalls : ∀ st k, (upd st k).calls = st.calls)
    (hbreak : ∀ k, (!(ex k) && isTaskComplete (r k)) = false) :
    ∀ (f : Nat) (resp : String) (st : AgentSt),
      st.cur ≤ cfg.max_iterations → cfg.max_iterations - st.cur ≤ f →
      ∃ stF res, (semAt cfg env f).loop resp st = (.ok res, stF) ∧
        stF.cur = cfg.max_iterations ∧
        stF.calls = st.calls + (cfg.max_iterations - st.cur) := by
  intro f
  induction f with
  | zero =>
      intro resp st hle hf
      have hdone : st.cur = cfg.max_iterations := by omega
      refine ⟨st, resp, ?_, hdone, by omega⟩
      simp only [semAt, botSem]
      rw [if_neg (by omega)]
  | succ f ih =>
      intro resp st hle hf
      by_cases hdone : st.cur = cfg.max_iterations
      · refine ⟨st, resp, ?_, hdone, by omega⟩
        simp only [semAt, stepSem]
        rw [if_neg (by omega)]
      · have hlt : st.cur < cfg.max_iterations := by omega
        have hcur2 : (upd { st with cur := st.cur + 1, calls := st.calls + 1 } st.calls).cur =
            st.cur + 1 := hcur _ _
        have hcalls2 : (upd { st with cur := st.cur + 1, calls := st.calls + 1 } st.calls).calls =
            st.calls + 1 := hcalls _ _
        obtain ⟨stF, res, h1, h2, h3⟩ :=
          ih (r st.calls) (upd { st with cur := st.cur + 1, calls := st.calls + 1 } st.calls)
            (by omega) (by omega)
        refine ⟨stF, res, ?_, h2, ?_⟩
        · simp only [semAt, stepSem]
          rw [if_pos hlt]
          simp only [hllm st.calls, hproc ((semAt cfg env f).unleash) _ st.calls,
            hbreak st.calls, Bool.false_eq_true, if_false, ite_false]
          exact h1
        · rw [h3, hcalls2]
          omega

/-- A full `unleash` run under a uniformly-dispatching, never-breaking model:
it reaches the ceiling and is reported as a success with the full iteration
count and one model invocation per iteration. -/
theorem run_to_ceiling (cfg : AgentCfg) (env : AgentEnv) (r : Nat → String)
    (ex : Nat → Bool) (upd : AgentSt → Nat → AgentSt)
    (hllm : ∀ k, env.llm k = .ok (r k))
    (hproc : ∀ cb st k, processResponse cfg env cb (r k) st = (.ok (ex k), upd st k))
    (hcur : ∀ st k, (upd st k).cur = st.cur)
    (hcalls : ∀ st k, (upd st k).calls = st.calls)
    (hbreak : ∀ k, (!(ex k) && isTaskComplete (r k)) = false)
    (f : Nat) (task : String) (st : AgentSt)
    (hf : cfg.max_iterations ≤ f + 1) :
    ∃ tr stF, (semAt cfg env (f + 1)).unleash task st = (some tr, stF) ∧
      tr.success = true ∧ tr.error = Option.none ∧
      tr.iterations_used = cfg.max_iterations ∧
      stF.cur = cfg.max_iterations ∧
      stF.calls = st.calls + cfg.max_iterations := by
  obtain ⟨stL, res, h1, h2, h3⟩ :=
    loop_runs_ceiling cfg env r ex upd hllm hproc hcur hcalls hbreak (f + 1) ""
      { st with cur := 0, user_task := task } (by simp) (by simpa using hf)
  simp only [semAt, stepSem] at h1 ⊢
  rw [h1]
  by_cases hof : cfg.output_file = true
  · refine ⟨_, _, rfl, rfl, rfl, h2, ?_, ?_⟩
    · simp only [hof, ite_true]
      exact h2
    · simp only [hof, ite_true]
      simpa using h3
  · rw [Bool.not_eq_true] at hof
    refine ⟨_, _, rfl, rfl, rfl, h2, ?_, ?_⟩
    · simp only [hof, Bool.false_eq_true, ite_false]
      exact h2
    · simp only [hof, Bool.false_eq_true, ite_false]
      simpa using h3

/-- C5 (amended): for `max_iterations = N ≥ 1`, a model that never emits
`pass_result`, a completion phrase, *or any response that dispatches a
command* causes the loop to terminate after exactly `N` iterations with
exactly `N` model invocations, reported as a success.  (As stated the claim
is false: a model may avoid `pass_result` and completion phrases yet emit a
successful tool call, whose dispatch re-enters the loop and resets the
counter — see the counterexample.) -/
theorem c5_iteration_ceiling_inert (cfg : AgentCfg) (env : AgentEnv)
    (r : Nat → String) (f : Nat) (task : String) (st : AgentSt)
    (hllm : ∀ k, env.llm k = .ok (r k))
    (hinert : ∀ k, inertResponse cfg (r k) = true)
    (hcomp : ∀ k, isTaskComplete (r k) = false)
    (hf : cfg.max_iterations ≤ f + 1) :
    ∃ tr stF, (semAt cfg env (f + 1)).unleash task st = (some tr, stF) ∧
      tr.success = true ∧ tr.iterations_used = cfg.max_iterations ∧
      stF.cur = cfg.max_iterations ∧
      stF.calls = st.calls + cfg.max_iterations := by
  obtain ⟨tr, stF, h1, h2, h3, h4, h5, h6⟩ :=
    run_to_ceiling cfg env r (fun _ => false) (fun st1 _ => st1) hllm
      (fun cb st1 k => inert_process cfg env cb (r k) st1 (hinert k))
      (fun _ _ => rfl) (fun _ _ => rfl)
      (fun k => by simp [hcomp k]) f task st hf
  exact ⟨tr, stF, h1, h2, h4, h5, h6⟩

set_option maxRecDepth 100000 in
/-- C5 witness: the inert model under ceiling 3 runs exactly 3 iterations
with 3 invocations and ends as a success. -/
theorem c5_iteration_ceiling_inert_witness :
    ∃ tr stF, (semAt cfgCalm envCalm 3).unleash ("task0") st0A = (some tr, stF) ∧
      tr.success = true ∧ tr.iterations_used = 3 ∧
      stF.cur = 3 ∧ stF.calls = 3 :=
  c5_iteration_ceiling_inert cfgCalm envCalm (fun _ => respCalm) 2 ("task0") st0A
    (fun _ => rfl) (fun _ => rfl) (fun _ => rfl) (by decide)

/-- C1 (amended): dispatching a `pass_result` block persists the result to
the output sink (when one is configured) and marks the turn as having
executed a command, which *suppresses* the completion-phrase break for that
turn; the loop is not terminated by the dispatch and keeps iterating until
the iteration ceiling.  The run still ends with `success = true`, so in the
happy-path scenario the loop stops at the ceiling, not at the `pass_result`
turn. -/
theorem c1_pass_result_not_terminal (cfg : AgentCfg) (env : AgentEnv)
    (r res : Nat → String) (f : Nat) (task : String) (st : AgentSt)
    (hllm : ∀ k, env.llm k = .ok (r k))
    (hpass : ∀ k, passOnlyProp (r k) (res k))
    (hf : cfg.max_iterations ≤ f + 1) :
    (∀ (cb : UnleashCb) (st1 : AgentSt) (k : Nat),
      processResponse cfg env cb (r k) st1 =
        (.ok true,
         if cfg.output_file then
           { st1 with output := some (saveFormat cfg.identity st1.user_task (res k)) }
         else st1)) ∧
    ∃ tr stF, (semAt cfg env (f + 1)).unleash task st = (some tr, stF) ∧
      tr.success = true ∧ tr.iterations_used = cfg.max_iterations ∧
      stF.calls = st.calls + cfg.max_iterations := by
  have hpp : ∀ (cb : UnleashCb) (st1 : AgentSt) (k : Nat),
      processResponse cfg env cb (r k) st1 =
        (.ok true,
         if cfg.output_file then
           { st1 with output := some (saveFormat cfg.identity st1.user_task (res k)) }
         else st1) :=
    fun cb st1 k => pass_process cfg env cb (r k) (res k) st1 (hpass k)
  refine ⟨hpp, ?_⟩
  obtain ⟨tr, stF, h1, h2, h3, h4, h5, h6⟩ :=
    run_to_ceiling cfg env r (fun _ => true)
      (fun st1 k =>
        if cfg.output_file then
          { st1 with output := some (saveFormat cfg.identity st1.user_task (res k)) }
        else st1)
      hllm hpp
      (fun st1 k => by by_cases h : cfg.output_file = true <;> simp [h])
      (fun st1 k => by by_cases h : cfg.output_file = true <;> simp [h])
      (fun k => by simp) f task st hf
  exact ⟨tr, stF, h1, h2, h4, h6⟩

set_option maxRecDepth 100000 in
/-- C1 witness: with the concrete pass-result model and ceiling 2, the
iteration-1 dispatch returns `True` and persists `finished`, and the run
still reaches 2 iterations and 2 invocations, ending as a success. -/
theorem c1_pass_result_not_terminal_witness :
    processResponse cfgPass envPass ((semAt cfgPass envPass 4).unleash) respPass stMid =
      (.ok true, { stMid with output := some (saveFormat ("agent") "task0" "finished") }) ∧
    ∃ tr stF, (semAt cfgPass envPass 5).unleash ("task0") st0A = (some tr, stF) ∧
      tr.success = true ∧ tr.iterations_used = 2 ∧ stF.calls = 2 := by
  have h := c1_pass_result_not_terminal cfgPass envPass (fun _ => respPass)
    (fun _ => "finished") 4 ("task0") st0A (fun _ => rfl)
    (fun _ =>
      ⟨"thoughts: done\nname: pass_result\nparams:\n  result: finished",
       [("thoughts", YVal.s ("done")), ("name", YVal.s ("pass_result")),
        ("params", YVal.m [("result", "finished")])],
       [("result", "finished")], rfl, rfl, rfl, rfl, rfl⟩)
    (by decide)
  exact ⟨h.1 ((semAt cfgPass envPass 4).unleash) stMid 0, h.2⟩

set_option maxRecDepth 100000 in
/-- C8 counterexample: the spec's own fallback input — a bare
`thoughts: > ...` line followed by `name: tool_a` and a params mapping, with
no code fence — yields exactly one candidate, which stops right before the
next top-level key: it is the thoughts fragment alone, and no Command Block
at all (in particular none named `tool_a`) is recovered from it. -/
theorem c8_counterexample :
    containsStr (mkTextC8 c8Thoughts) "```" = false ∧
    containsStr (mkTextC8 c8Thoughts) "name: tool_a" = true ∧
    extractYamlBlocks (mkTextC8 c8Thoughts) = ["thoughts: > " ++ c8Thoughts] ∧
    recoveredCommandBlocks (mkTextC8 c8Thoughts) = [] :=
  ⟨rfl, rfl, rfl, rfl⟩

/-- The fenced-block scan finds nothing in text without backticks. -/
theorem findFencedGo_no_tick :
    ∀ (n : Nat) (l : List Char), (∀ c ∈ l, c ≠ btick) → findFencedGo n l = [] := by
  intro n
  induction n with
  | zero => intro l _; rfl
  | succ n ih =>
      intro l h
      match l with
      | [] => rfl
      | c :: cs =>
          have hc : c ≠ btick := h c (by simp)
          have hmatch : matchFenceAt (c :: cs) = Option.none := by
            unfold matchFenceAt dropLit
            have : (("```".data).isPrefixOf (c :: cs)) = false := by
              show (([btick, btick, btick] : List Char).isPrefixOf (c :: cs)) = false
              simp [List.isPrefixOf, hc]
              intro hcon
              exact absurd hcon.symm hc
            rw [this]
            simp
          unfold findFencedGo
          rw [hmatch]
          exact ih cs fun d hd => h d (by simp [hd])

/-- The fallback scan finds nothing in text without a `thoughts:`
occurrence. -/
theorem findBareGo_no_thoughts :
    ∀ (n : Nat) (l : List Char),
      listHasSub ("thoughts:".data) l = false → findBareGo n l = [] := by
  intro n
  induction n with
  | zero => intro l _; rfl
  | succ n ih =>
      intro l h
      match l with
      | [] => rfl
      | c :: cs =>
          unfold listHasSub at h
          rw [Bool.or_eq_false_iff] at h
          have hmatch : matchBareAt (c :: cs) = Option.none := by
            unfold matchBareAt dropLit
            rw [h.1]
            simp
          unfold findBareGo
          rw [hmatch]
          exact ih cs h.2

/-- Stepping the fallback scan through a successful anchored match. -/
theorem findBareGo_cons_match (n : Nat) (l g r : List Char) (hl : l ≠ [])
    (hm : matchBareAt l = some (g, r)) :
    findBareGo (n + 1) l = String.mk g :: findBareGo n r := by
  match l with
  | [] => exact absurd rfl hl
  | c :: cs =>
      have heq : findBareGo (n + 1) (c :: cs) =
          (match matchBareAt (c :: cs) with
           | some p => String.mk p.1 :: findBareGo n p.2
           | Option.none => findBareGo n cs) := rfl
      rw [heq, hm]

/-- The lazy body of the fallback pattern consumes a newline-free prefix and
stops at a newline followed by a non-whitespace character. -/
theorem takeLazyBody_append (a : List Char) (d : Char) (e : List Char)
    (ha : ∀ c ∈ a, c ≠ '\n') (hd : isPyWs d = false) :
    takeLazyBody (a ++ '\n' :: d :: e) = (a, '\n' :: d :: e) := by
  induction a with
  | nil =>
      simp only [List.nil_append]
      unfold takeLazyBody
      simp [hd]
  | cons c cs ih =>
      have hc : c ≠ '\n' := ha c (by simp)
      simp only [List.cons_append, takeLazyBody, List.append_eq]
      rw [ih fun x hx => ha x (by simp [hx])]
      simp [hc]

/-- Consuming a literal prefix of an append. -/
theorem dropLit_append (pat r : List Char) : dropLit pat (pat ++ r) = some r := by
  unfold dropLit
  rw [List.isPrefixOf_iff_prefix.mpr (List.prefix_append pat r)]
  simp

/-- Splitting into lines is trivial on newline-free text. -/
theorem splitLinesGo_no_nl :
    ∀ (l acc : List Char), (∀ c ∈ l, c ≠ '\n') →
      splitLinesGo acc l = [acc.reverse ++ l] := by
  intro l
  induction l with
  | nil => intro acc _; simp [splitLinesGo]
  | cons c cs ih =>
      intro acc h
      have hc : c ≠ '\n' := h c (by simp)
      unfold splitLinesGo
      rw [if_neg hc]
      rw [ih (c :: acc) fun d hd => h d (by simp [hd])]
      simp

/-- Right-stripping yields the empty list exactly on all-whitespace text. -/
theorem stripR_eq_nil_iff :
    ∀ l : List Char, stripR l = [] ↔ ∀ c ∈ l, isPyWs c = true := by
  intro l
  induction l with
  | nil => simp [stripR]
  | cons c cs ih =>
      have hstep : stripR (c :: cs) =
          if (stripR cs).isEmpty && isPyWs c then [] else c :: stripR cs := rfl
      rw [hstep]
      by_cases hcond : ((stripR cs).isEmpty && isPyWs c) = true
      · rw [if_pos hcond]
        rw [Bool.and_eq_true, List.isEmpty_iff] at hcond
        constructor
        · intro _ d hd
          rcases List.mem_cons.mp hd with h1 | h1
          · rw [h1]; exact hcond.2
          · exact ih.mp hcond.1 d h1
        · intro _; rfl
      · rw [if_neg hcond]
        rw [Bool.and_eq_true, List.isEmpty_iff] at hcond
        constructor
        · intro hcon
          exact absurd hcon (by simp)
        · intro hall
          exact absurd
            ⟨ih.mpr fun d hd => hall d (List.mem_cons_of_mem c hd),
             hall c (List.mem_cons_self c cs)⟩ hcond

/-- Right-stripping a cons whose tail survives keeps the head. -/
theorem stripR_cons_of_ne (c : Char) (l : List Char) (h : stripR l ≠ []) :
    stripR (c :: l) = c :: stripR l := by
  have hstep : stripR (c :: l) =
      if (stripR l).isEmpty && isPyWs c then [] else c :: stripR l := rfl
  rw [hstep, if_neg]
  rw [Bool.and_eq_true, List.isEmpty_iff]
  intro hcon
  exact h hcon.1

/-- Stripping a line that starts with a non-whitespace character never yields
the empty list. -/
theorem pyStrip_cons_nonws (c : Char) (l : List Char) (h : isPyWs c = false) :
    pyStrip (c :: l) = stripR (c :: l) ∧ pyStrip (c :: l) ≠ [] := by
  have hdrop : stripL (c :: l) = c :: l := by
    unfold stripL
    rw [List.dropWhile_cons_of_neg (by simp [h])]
  constructor
  · unfold pyStrip
    rw [hdrop]
  · unfold pyStrip
    rw [hdrop]
    intro hcon
    rw [stripR_eq_nil_iff] at hcon
    exact absurd (hcon c (by simp)) (by simp [h])

/-- Stripping the after-colon text of an inline `: > content` line yields a
`>` followed by surviving content. -/
theorem pyStrip_inline_gt (t : List Char) (hws : pyStrip t ≠ []) :
    ∃ w, pyStrip (' ' :: '>' :: ' ' :: t) = '>' :: w ∧ w ≠ [] := by
  have htail : stripR (' ' :: t) ≠ [] := by
    intro hcon
    rw [stripR_eq_nil_iff] at hcon
    apply hws
    unfold pyStrip
    have : stripL t = [] := by
      unfold stripL
      rw [List.dropWhile_eq_nil_iff]
      intro d hd
      simpa using hcon d (List.mem_cons_of_mem ' ' hd)
    rw [this]
    rfl
  refine ⟨stripR (' ' :: t), ?_, htail⟩
  unfold pyStrip stripL
  rw [List.dropWhile_cons_of_pos (by simp [isPyWs]),
    List.dropWhile_cons_of_neg (by simp [isPyWs])]
  exact stripR_cons_of_ne '>' (' ' :: t) htail

/-- Character-level decomposition of the fallback-scenario text. -/
theorem mkTextC8_data (t : String) :
    (mkTextC8 t).data = "thoughts:".data ++ ([' ', '>', ' '] ++ (t.data ++ c8Tail.data)) := by
  unfold mkTextC8
  rw [String.data_append, String.data_append]
  rw [show ("thoughts: > " : String).data = "thoughts:".data ++ [' ', '>', ' '] from rfl]
  simp [List.append_assoc]

/-- Character-level decomposition of the recovered thoughts fragment. -/
theorem c8_group_data (t : String) :
    ("thoughts: > " ++ t).data = "thoughts:".data ++ ([' ', '>', ' '] ++ t.data) := by
  rw [String.data_append]
  rw [show ("thoughts: > " : String).data = "thoughts:".data ++ [' ', '>', ' '] from rfl]
  simp [List.append_assoc]

/-- The anchored fallback match on the scenario text: it consumes the
`thoughts:` key, the whitespace, the `>` and the inline content, and stops
right before the newline that precedes the next top-level key `name:`. -/
theorem c8_matchBareAt (t : String) (hnl : ∀ c ∈ t.data, c ≠ '\n') :
    matchBareAt ((mkTextC8 t).data) =
      some ("thoughts:".data ++ [' '] ++ '>' :: (' ' :: t.data), c8Tail.data) := by
  rw [mkTextC8_data]
  unfold matchBareAt
  rw [dropLit_append]
  simp only [List.cons_append, List.nil_append]
  rw [show takeWsRun (' ' :: '>' :: ' ' :: (t.data ++ c8Tail.data)) =
      ([' '], '>' :: ' ' :: (t.data ++ c8Tail.data)) from by
    simp [takeWsRun, isPyWs]]
  have hshape : c8Tail.data = '\n' :: 'n' :: c8Tail.data.tail.tail := rfl
  have hbody : takeLazyBody (' ' :: (t.data ++ c8Tail.data)) =
      (' ' :: t.data, c8Tail.data) := by
    have : ' ' :: (t.data ++ c8Tail.data) = (' ' :: t.data) ++ c8Tail.data := by simp
    rw [this, hshape]
    rw [takeLazyBody_append (' ' :: t.data) 'n' c8Tail.data.tail.tail
      (by
        intro c hc
        rcases List.mem_cons.mp hc with h1 | h1
        · rw [h1]; decide
        · exact hnl c h1)
      (by decide)]
  dsimp only
  rw [hbody]
  simp

/-- On the fallback-scenario text the extractor recovers exactly one
candidate: the thoughts fragment, cut right before the `name:` key. -/
theorem c8_extract (t : String)
    (hnl : ∀ c ∈ t.data, c ≠ '\n')
    (hbt : ∀ c ∈ t.data, c ≠ btick) :
    extractYamlBlocks (mkTextC8 t) = ["thoughts: > " ++ t] := by
  have hfen : findFenced (mkTextC8 t) = [] := by
    unfold findFenced
    apply findFencedGo_no_tick
    have h1dec : ∀ c ∈ ("thoughts:".data), c ≠ btick := by decide
    have h2dec : ∀ c ∈ ([' ', '>', ' '] : List Char), c ≠ btick := by decide
    have h3dec : ∀ c ∈ c8Tail.data, c ≠ btick := by decide
    intro c hc
    rw [mkTextC8_data] at hc
    rcases List.mem_append.mp hc with h1 | h2
    · exact h1dec c h1
    rcases List.mem_append.mp h2 with h3 | h4
    · exact h2dec c h3
    rcases List.mem_append.mp h4 with h5 | h6
    · exact hbt c h5
    · exact h3dec c h6
  have hpos : (mkTextC8 t).data ≠ [] := by
    rw [mkTextC8_data]
    simp
  obtain ⟨m, hm⟩ : ∃ m, (mkTextC8 t).data.length = m + 1 := by
    refine ⟨(mkTextC8 t).data.length - 1, ?_⟩
    have : 0 < (mkTextC8 t).data.length := List.length_pos.mpr hpos
    omega
  have hgroup : String.mk ("thoughts:".data ++ [' '] ++ '>' :: (' ' :: t.data)) =
      "thoughts: > " ++ t := by
    apply String.ext
    show ("thoughts:").data ++ [' '] ++ '>' :: (' ' :: t.data) = _
    rw [c8_group_data]
    simp
  have hbare : findBare (mkTextC8 t) = ["thoughts: > " ++ t] := by
    unfold findBare
    rw [hm]
    rw [findBareGo_cons_match m _ _ _ hpos (c8_matchBareAt t hnl)]
    rw [findBareGo_no_thoughts m c8Tail.data (by decide)]
    rw [hgroup]
  unfold extractYamlBlocks
  rw [hfen, hbare]
  rfl

/-- Evaluating `splitKey` on the recovered thoughts fragment: the key is
`thoughts` and the rest is the inline `> ...` content. -/
theorem c8_splitKey (t : String) :
    splitKey ("thoughts:".data ++ ([' ', '>', ' '] ++ t.data)) =
      some ("thoughts", ' ' :: '>' :: ' ' :: t.data) := by
  unfold splitKey
  rw [show splitKeyGo [] ("thoughts:".data ++ ([' ', '>', ' '] ++ t.data)) =
      some ("thoughts".data, ' ' :: '>' :: ' ' :: t.data) from by
    simp [splitKeyGo, List.cons_append]]
  simp [isPyWs]

/-- The recovered thoughts fragment is not valid YAML in the modelled
fragment: its value text starts with `>` followed by inline content, which
PyYAML rejects (a block scalar indicator must be followed by a line break). -/
theorem c8_parse_fails (t : String)
    (hnl : ∀ c ∈ t.data, c ≠ '\n')
    (hws : pyStrip t.data ≠ []) :
    miniYaml ("thoughts: > " ++ t) = Option.none := by
  have hlines : splitLines ("thoughts: > " ++ t) = [("thoughts: > " ++ t).data] := by
    unfold splitLines
    rw [splitLinesGo_no_nl _ []
      (by
        have hpre : ∀ c ∈ ("thoughts: > ".data), c ≠ '\n' := by decide
        intro c hc
        rw [String.data_append] at hc
        rcases List.mem_append.mp hc with h1 | h2
        · exact hpre c h1
        · exact hnl c h2)]
    simp
  have hline : ("thoughts: > " ++ t).data =
      "thoughts:".data ++ ([' ', '>', ' '] ++ t.data) := c8_group_data t
  obtain ⟨w, hgt, hwne⟩ := pyStrip_inline_gt t.data hws
  have hparse : parseTopGo 1 [("thoughts: > " ++ t).data] = Option.none := by
    unfold parseTopGo
    rw [hline]
    have hc0 : ¬ (pyStrip ("thoughts:".data ++ ([' ', '>', ' '] ++ t.data)) = []) := by
      rw [show ("thoughts:").data ++ ([' ', '>', ' '] ++ t.data) =
          't' :: ("houghts:".data ++ ([' ', '>', ' '] ++ t.data)) from rfl]
      exact (pyStrip_cons_nonws 't' _ (by decide)).2
    rw [if_neg hc0]
    have hind : startsIndented ("thoughts:".data ++ ([' ', '>', ' '] ++ t.data)) = false := by
      rw [show ("thoughts:").data ++ ([' ', '>', ' '] ++ t.data) =
          't' :: ("houghts:".data ++ ([' ', '>', ' '] ++ t.data)) from rfl]
      simp [startsIndented, isPyWs]
    rw [hind]
    simp only [Bool.false_eq_true, if_false, ite_false]
    rw [c8_splitKey]
    have hv : pyStrip (' ' :: '>' :: ' ' :: t.data) = '>' :: w := hgt
    simp only [hv]
    rw [if_neg (by
      intro hcon
      have : w = [] := by
        injection hcon
      exact hwne this)]
    rw [if_pos (by rfl)]
  unfold miniYaml parseTopLevel
  rw [hlines]
  rw [show ([("thoughts: > " ++ t).data] : List (List Char)).length = 1 from rfl]
  rw [hparse]

/-- C8 (amended): on text of the spec's fallback shape — a bare
`thoughts: > <inline content>` line followed by `name: tool_a` and a params
mapping, with no code fence — the fallback parser activates but the single
candidate it recovers extends only up to the next top-level key: it is the
thoughts fragment alone (the `name:` line is cut off), and it yields no
parsed Command Block at all (its `> inline` content is not even valid YAML),
so no Command Block named `tool_a` is recovered. -/
theorem c8_fallback_cuts_at_next_key (t : String)
    (hnl : ∀ c ∈ t.data, c ≠ '\n')
    (hbt : ∀ c ∈ t.data, c ≠ btick)
    (hws : pyStrip t.data ≠ []) :
    extractYamlBlocks (mkTextC8 t) = ["thoughts: > " ++ t] ∧
    recoveredCommandBlocks (mkTextC8 t) = [] := by
  refine ⟨c8_extract t hnl hbt, ?_⟩
  unfold recoveredCommandBlocks
  rw [c8_extract t hnl hbt]
  simp [c8_parse_fails t hnl hws]

set_option maxRecDepth 100000 in
/-- C8 witness: the amended theorem instantiated at the concrete inline
thoughts content. -/
theorem c8_fallback_cuts_at_next_key_witness :
    extractYamlBlocks (mkTextC8 c8Thoughts) = ["thoughts: > " ++ c8Thoughts] ∧
    recoveredCommandBlocks (mkTextC8 c8Thoughts) = [] :=
  c8_fallback_cuts_at_next_key c8Thoughts (by decide) (by decide) (by decide)
